import Mathlib

/-!
Verification development for the CourtVision play-event processing and
pattern-detection engine.

The Python source is shallowly embedded below:
* src/lambda/processing/handler.py       — dedup guard, score updater, stat accumulator
* src/lambda/ingestion/analyze_patterns.py — scoring run / hot streak / momentum detectors

Python strings become Lean String; Python substring tests (the in operator
on lowercased text) become containsSub over the underlying character lists;
Python dicts used as keyed accumulators become association lists that
preserve insertion order, exactly as CPython dicts do.
-/

/-- Boolean test that the list needle occurs as a contiguous infix of the
second list, mirroring the Python expression needle in hay. -/
def containsSub (needle : List Char) : List Char → Bool
  | [] => needle.isEmpty
  | a :: rest => needle.isPrefixOf (a :: rest) || containsSub needle rest

/-- ASCII lowercase of one character, as Python str.lower acts on the
ASCII play-by-play text handled by the pipeline. -/
def lowerChar (c : Char) : Char :=
  if 'A' ≤ c ∧ c ≤ 'Z' then Char.ofNat (c.toNat + 32) else c

/-- Lowercased character list of a string: the embedding of text.lower(). -/
def lowerStr (s : String) : List Char := s.data.map lowerChar

/-- Embedding of the Python test sub in s.lower(). -/
def strContainsLower (s sub : String) : Bool := containsSub sub.data (lowerStr s)

/-- Lookup in an insertion-ordered association list (Python dict read). -/
def lookupA {κ α : Type} [DecidableEq κ] : List (κ × α) → κ → Option α
  | [], _ => none
  | kv :: rest, k => if kv.1 = k then some kv.2 else lookupA rest k

/-- Write to an insertion-ordered association list: an existing key keeps
its position (CPython dict update), a new key is appended at the end
(CPython dict insert). -/
def upsertA {κ α : Type} [DecidableEq κ] : List (κ × α) → κ → α → List (κ × α)
  | [], k, v => [(k, v)]
  | kv :: rest, k, v => if kv.1 = k then (k, v) :: rest else kv :: upsertA rest k v

/-- Deletion of a key from an association list (Python del dict entry). -/
def eraseA {κ α : Type} [DecidableEq κ] (l : List (κ × α)) (k : κ) : List (κ × α) :=
  l.filter (fun kv => !(kv.1 = k))

/-- One Play Event as the pipeline sees it: a DynamoDB item whose fields
the Python code reads with play.get.  PK is the game key, SK the play
sort key (the dedup key is the pair).  A missing playerId (a team-level
event) is Option.none. -/
structure Play where
  PK : String
  SK : String
  text : String
  playType : String
  action : String
  scoringPlay : Bool
  pointsScored : Nat
  playerId : Option String
  playerName : String
  team : String
  quarter : Nat
  homeScore : Nat
  awayScore : Nat
  timestamp : String
  gameClock : String
deriving Repr, DecidableEq

/-- Embedding of the boolean is_three of calculate_stats_delta:
text contains three, 3pt or three point (the third disjunct is
subsumed by the first, exactly as in the source). -/
def isThreeText (p : Play) : Bool :=
  strContainsLower p.text "three" || strContainsLower p.text "3pt" ||
    strContainsLower p.text "three point"

/-- Embedding of the boolean is_free_throw of calculate_stats_delta. -/
def isFreeThrowPlay (p : Play) : Bool :=
  strContainsLower p.text "free throw" || strContainsLower p.playType "free"

/-- Embedding of the boolean is_foul of calculate_stats_delta. -/
def isFoulText (p : Play) : Bool := strContainsLower p.text "foul"

/-- Embedding of the miss-or-block test of calculate_stats_delta. -/
def isMissOrBlockText (p : Play) : Bool :=
  strContainsLower p.text "miss" || strContainsLower p.text "block"

/-- The per-play stat delta record returned by calculate_stats_delta. -/
structure StatsDelta where
  points : Nat
  fgMade : Nat
  fgAttempted : Nat
  threeMade : Nat
  threeAttempted : Nat
  fouls : Nat
deriving Repr, DecidableEq

/-- The all-zero delta. -/
def zeroDelta : StatsDelta := ⟨0, 0, 0, 0, 0, 0⟩

/-- Embedding of calculate_stats_delta (src/lambda/processing/handler.py).
The branch structure follows the source: scoring plays with positive
points first (three-pointer check before the free-throw exclusion), then
non-scoring miss-or-block plays (again three before the free-throw
exclusion), and an independent foul increment at the end. -/
def calculate_stats_delta (play : Play) : StatsDelta :=
  let d1 : StatsDelta :=
    if play.scoringPlay && decide (0 < play.pointsScored) then
      if isThreeText play then
        { zeroDelta with points := play.pointsScored, fgMade := 1, fgAttempted := 1,
                         threeMade := 1, threeAttempted := 1 }
      else if !isFreeThrowPlay play then
        { zeroDelta with points := play.pointsScored, fgMade := 1, fgAttempted := 1 }
      else
        { zeroDelta with points := play.pointsScored }
    else if !play.scoringPlay && isMissOrBlockText play then
      if isThreeText play then
        { zeroDelta with fgAttempted := 1, threeAttempted := 1 }
      else if !isFreeThrowPlay play then
        { zeroDelta with fgAttempted := 1 }
      else zeroDelta
    else zeroDelta
  if isFoulText play then { d1 with fouls := 1 } else d1

/-- Stat delta exactly as claim C6 words it, written field by field.  The
miss-or-block branch is guarded by the play not being a free throw as a
whole, with the three-point attempt only adding threeAttempted inside
that guard. -/
def statsDeltaClaim (p : Play) : StatsDelta :=
  let scoringMade : Bool := p.scoringPlay && decide (0 < p.pointsScored)
  { points := if scoringMade then p.pointsScored else 0
    fgMade := if scoringMade && (isThreeText p || !isFreeThrowPlay p) then 1 else 0
    fgAttempted :=
      if scoringMade && (isThreeText p || !isFreeThrowPlay p) then 1
      else if !p.scoringPlay && isMissOrBlockText p && !isFreeThrowPlay p then 1
      else 0
    threeMade := if scoringMade && isThreeText p then 1 else 0
    threeAttempted :=
      if scoringMade && isThreeText p then 1
      else if !p.scoringPlay && isMissOrBlockText p && !isFreeThrowPlay p && isThreeText p then 1
      else 0
    fouls := if isFoulText p then 1 else 0 }

/-- Stat delta as claim C6 must be amended to match the source: on the
miss-or-block branch a three-point attempt counts fgAttempted and
threeAttempted regardless of the free-throw test; the free-throw
exclusion only guards non-three misses. -/
def statsDeltaAmended (p : Play) : StatsDelta :=
  let scoringMade : Bool := p.scoringPlay && decide (0 < p.pointsScored)
  { points := if scoringMade then p.pointsScored else 0
    fgMade := if scoringMade && (isThreeText p || !isFreeThrowPlay p) then 1 else 0
    fgAttempted :=
      if scoringMade && (isThreeText p || !isFreeThrowPlay p) then 1
      else if !p.scoringPlay && isMissOrBlockText p && (isThreeText p || !isFreeThrowPlay p) then 1
      else 0
    threeMade := if scoringMade && isThreeText p then 1 else 0
    threeAttempted :=
      if scoringMade && isThreeText p then 1
      else if !p.scoringPlay && isMissOrBlockText p && isThreeText p then 1
      else 0
    fouls := if isFoulText p then 1 else 0 }

/-- The Player Game Ledger counters, one record per player per game. -/
structure PlayerLedger where
  points : Nat
  fgMade : Nat
  fgAttempted : Nat
  threeMade : Nat
  threeAttempted : Nat
  fouls : Nat
deriving Repr, DecidableEq

/-- The ledger with all counters zero, the DynamoDB default the ADD
expression starts from when the item is absent. -/
def zeroLedger : PlayerLedger := ⟨0, 0, 0, 0, 0, 0⟩

/-- Embedding of the ADD update expression built by update_player_stats:
each strictly positive delta component is added to its counter, a zero
component is left out of the expression (which adds nothing). -/
def addDeltaToLedger (l : PlayerLedger) (d : StatsDelta) : PlayerLedger :=
  { points := if 0 < d.points then l.points + d.points else l.points
    fgMade := if 0 < d.fgMade then l.fgMade + d.fgMade else l.fgMade
    fgAttempted := if 0 < d.fgAttempted then l.fgAttempted + d.fgAttempted else l.fgAttempted
    threeMade := if 0 < d.threeMade then l.threeMade + d.threeMade else l.threeMade
    threeAttempted :=
      if 0 < d.threeAttempted then l.threeAttempted + d.threeAttempted else l.threeAttempted
    fouls := if 0 < d.fouls then l.fouls + d.fouls else l.fouls }

/-- The shooting invariant on a delta: makes never exceed attempts and
three-point counters never exceed field-goal counters. -/
def deltaShootingInv (d : StatsDelta) : Prop :=
  d.fgMade ≤ d.fgAttempted ∧ d.threeMade ≤ d.threeAttempted ∧ d.threeAttempted ≤ d.fgAttempted

/-- The shooting invariant on a ledger. -/
def ledgerShootingInv (l : PlayerLedger) : Prop :=
  l.fgMade ≤ l.fgAttempted ∧ l.threeMade ≤ l.threeAttempted ∧ l.threeAttempted ≤ l.fgAttempted

/-- The record built by detect_run_in_window when a window qualifies:
team on the run, points for and against inside the window, and the
window size (the source formats it as the string window_size-play). -/
structure RunCore where
  team : String
  points_for : Nat
  points_against : Nat
  window_size : Nat
deriving Repr, DecidableEq

/-- Embedding of the scoring loop of detect_run_in_window
(src/lambda/ingestion/analyze_patterns.py): left fold over the window
accumulating the points of home and away scoring plays; a scoring play
whose team matches neither accumulates nothing, and if both names were
equal the home branch would win, as in the Python if-elif. -/
def windowPoints (home_team away_team : String) (window : List Play) : Nat × Nat :=
  window.foldl
    (fun acc p =>
      if p.scoringPlay then
        if p.team = home_team then (acc.1 + p.pointsScored, acc.2)
        else if p.team = away_team then (acc.1, acc.2 + p.pointsScored)
        else acc
      else acc)
    (0, 0)

/-- Embedding of the thresholds dictionary of detect_run_in_window
together with the default of its .get call: every window size outside
the four listed keys falls back to (8, 2). -/
def runThresholds (window_size : Nat) : Nat × Nat :=
  if window_size = 25 then (8, 2)
  else if window_size = 50 then (16, 4)
  else if window_size = 75 then (20, 6)
  else if window_size = 120 then (20, 8)
  else (8, 2)

/-- Embedding of detect_run_in_window: sum each team inside the window,
pick the thresholds for the window size, and return the home run, else
the away run, else none. -/
def detect_run_in_window (window : List Play) (home_team away_team : String)
    (window_size : Nat) : Option RunCore :=
  let pts := windowPoints home_team away_team window
  let thr := runThresholds window_size
  if thr.1 ≤ pts.1 ∧ pts.2 ≤ thr.2 then
    some ⟨home_team, pts.1, pts.2, window_size⟩
  else if thr.1 ≤ pts.2 ∧ pts.1 ≤ thr.2 then
    some ⟨away_team, pts.2, pts.1, window_size⟩
  else none

/-- One qualifying run candidate as analyze_quarter_runs extends it:
the core fields plus quarter, window position and the boundary sort
keys copied from the window. -/
structure Run where
  team : String
  points_for : Nat
  points_against : Nat
  window_size : Nat
  quarter : Nat
  start_play : Nat
  end_play : Nat
  window_start_sk : String
  window_end_sk : String
deriving Repr, DecidableEq

/-- One candidate folded into the best-by-key dict: a new key is
inserted, an existing key is replaced only when the new measure is
strictly larger, exactly the Python pattern
if key not in best or meas new > meas old. -/
def bestStep {κ α : Type} [DecidableEq κ] (key : α → κ) (meas : α → Nat)
    (acc : List (κ × α)) (a : α) : List (κ × α) :=
  (lookupA acc (key a)).elim (upsertA acc (key a) a)
    (fun b => if meas b < meas a then upsertA acc (key a) a else acc)

/-- Generic best-by-key accumulator shared by deduplicate_runs and the
hot streak deduplication: fold over the candidates keeping, per key, the
first candidate whose measure no later candidate strictly exceeds. -/
def bestFold {κ α : Type} [DecidableEq κ] (key : α → κ) (meas : α → Nat) :
    List (κ × α) → List α → List (κ × α)
  | acc, [] => acc
  | acc, a :: rest => bestFold key meas (bestStep key meas acc a) rest

/-- Replacing a current best by a strictly better candidate. -/
def bestUpd {α : Type} (meas : α → Nat) (cur : Option α) (a : α) : Option α :=
  match cur with
  | none => some a
  | some b => if meas b < meas a then some a else some b

/-- The selection bestFold performs for one key, expressed directly as a
left-to-right scan of the candidate list threading the current best. -/
def bestOf {κ α : Type} [DecidableEq κ] (key : α → κ) (meas : α → Nat) (k : κ) :
    List α → Option α → Option α
  | [], cur => cur
  | a :: rest, cur =>
    bestOf key meas k rest (if key a = k then bestUpd meas cur a else cur)

/-- The comparison Python sorts deduplicated runs by: ascending quarter,
then descending points_for (the key (quarter, -points_for)). -/
def runOrder (a b : Run) : Prop :=
  a.quarter < b.quarter ∨ (a.quarter = b.quarter ∧ b.points_for ≤ a.points_for)

instance : DecidableRel runOrder := fun a b => by
  unfold runOrder; infer_instance

instance : IsTotal Run runOrder := by
  constructor; intro a b; unfold runOrder; omega

instance : IsTrans Run runOrder := by
  constructor; intro a b c; unfold runOrder; omega

/-- Embedding of deduplicate_runs: keep the biggest run per
(quarter, team) pair, then sort by (quarter, -points_for).  The dict
fold is bestFold; the stable Python sort is modelled by insertion
sort over the same order. -/
def deduplicate_runs (runs : List Run) : List Run :=
  match runs with
  | [] => []
  | _ =>
    let best := bestFold (fun r => (r.quarter, r.team)) (fun r => r.points_for) [] runs
    List.insertionSort runOrder (best.map Prod.snd)

/-- Per-player streak state of detect_hot_streaks
(src/lambda/ingestion/analyze_patterns.py): the consecutive-make count
plus the identity fields and the list of streak plays the source also
keeps (the play list is never read back). -/
structure StreakState where
  count : Nat
  player_name : String
  team : String
  plays : List Play
deriving Repr, DecidableEq

/-- One emitted HotStreak candidate. -/
structure HotStreak where
  player_id : String
  player_name : String
  team : String
  consecutive_makes : Nat
  quarter : Nat
  timestamp : String
deriving Repr, DecidableEq

/-- Embedding of the free-throw test of detect_hot_streaks: the
lowercased action contains free. -/
def actionFreeThrow (p : Play) : Bool := strContainsLower p.action "free"

/-- Embedding of the made-shot test of detect_hot_streaks: action
contains made and the play is not a free throw. -/
def actionMadeShot (p : Play) : Bool :=
  strContainsLower p.action "made" && !actionFreeThrow p

/-- Embedding of the missed-shot test of detect_hot_streaks: action
contains missed and the play is not a free throw. -/
def actionMissedShot (p : Play) : Bool :=
  strContainsLower p.action "missed" && !actionFreeThrow p

/-- One loop iteration of detect_hot_streaks: returns the updated
player_streaks dict together with the candidate appended to hot_streaks
by this play, if any.  A play with no playerId is skipped; a made shot
creates or increments the state and emits once the count reaches 3; a
missed shot deletes the state; every other play leaves it unchanged. -/
def hotStreakStep (st : List (String × StreakState)) (p : Play) :
    List (String × StreakState) × Option HotStreak :=
  match p.playerId with
  | none => (st, none)
  | some pid =>
    if actionMadeShot p then
      let s0 :=
        match lookupA st pid with
        | some s => s
        | none => ⟨0, p.playerName, p.team, []⟩
      let s1 : StreakState :=
        { s0 with count := s0.count + 1, plays := s0.plays ++ [p] }
      let st' := upsertA st pid s1
      if 3 ≤ s1.count then
        (st', some ⟨pid, s1.player_name, s1.team, s1.count, p.quarter, p.timestamp⟩)
      else (st', none)
    else if actionMissedShot p then
      (eraseA st pid, none)
    else (st, none)

/-- The candidate stream of detect_hot_streaks: the hot_streaks list
accumulated over all plays, before deduplication. -/
def hotStreakCandidates (plays : List Play) : List HotStreak :=
  (plays.foldl
    (fun (acc : List (String × StreakState) × List HotStreak) p =>
      let (st', c) := hotStreakStep acc.1 p
      (st', acc.2 ++ c.toList))
    ([], [])).2

/-- Embedding of detect_hot_streaks including its final deduplication:
keep, per player, the candidate with the most consecutive makes (first
candidate wins ties), in dict insertion order. -/
def detect_hot_streaks (plays : List Play) : List HotStreak :=
  ((bestFold (fun c => c.player_id) (fun c => c.consecutive_makes) []
      (hotStreakCandidates plays)).map Prod.snd)

/-- Leader designation derived from a cumulative score margin. -/
inductive Leader where
  | home
  | away
  | tied
deriving Repr, DecidableEq

/-- One emitted MomentumShift record: the team taking the lead, the
maximum deficit tracked since the last lead change, the new score
(the source formats it as the string home-away) and the quarter. -/
structure MomentumShift where
  team : String
  previous_deficit : Nat
  new_home_score : Nat
  new_away_score : Nat
  quarter : Nat
deriving Repr, DecidableEq

/-- The running state of detect_momentum_shifts: previous_leader starts
as Python None, and max_deficit at 0. -/
structure MomentumState where
  previousLeader : Option Leader
  maxDeficit : Nat
deriving Repr, DecidableEq

/-- The current leader computed from a cumulative score, as the margin
sign test of detect_momentum_shifts. -/
def leaderOf (p : Play) : Leader :=
  if 0 < (p.homeScore : Int) - (p.awayScore : Int) then .home
  else if (p.homeScore : Int) - (p.awayScore : Int) < 0 then .away
  else .tied

/-- One loop iteration of detect_momentum_shifts
(src/lambda/ingestion/analyze_patterns.py): raise max_deficit to the
absolute margin whenever some team leads, then, if a previous leader
exists and the current leader is neither tied nor equal to it, emit a
shift when max_deficit is at least 1 and reset max_deficit to 0. -/
def momentumStep (home_team away_team : String) (st : MomentumState) (p : Play) :
    MomentumState × Option MomentumShift :=
  let margin : Int := (p.homeScore : Int) - (p.awayScore : Int)
  let current : Leader := leaderOf p
  let maxDef : Nat :=
    if current = .home then max st.maxDeficit margin.natAbs
    else if current = .away then max st.maxDeficit margin.natAbs
    else st.maxDeficit
  match st.previousLeader with
  | some prev =>
    if current ≠ .tied ∧ current ≠ prev then
      if 1 ≤ maxDef then
        (⟨some current, 0⟩,
          some ⟨(if current = .home then home_team else away_team), maxDef,
                p.homeScore, p.awayScore, p.quarter⟩)
      else (⟨some current, 0⟩, none)
    else (⟨some current, maxDef⟩, none)
  | none => (⟨some current, maxDef⟩, none)

/-- Embedding of detect_momentum_shifts: fold the step over the plays in
chronological order, collecting the emitted shifts. -/
def detect_momentum_shifts (home_team away_team : String) (plays : List Play) :
    List MomentumShift :=
  (plays.foldl
    (fun (acc : MomentumState × List MomentumShift) p =>
      let (st', c) := momentumStep home_team away_team acc.1 p
      (st', acc.2 ++ c.toList))
    (⟨none, 0⟩, [])).2

/-- The momentum detector as claim C1 must be amended: identical state
tracking, but the emission guard is only that a previous leader exists
and the current leader is neither tied nor equal to it — the previous
leader may be tied, and the max_deficit threshold imposes nothing
because max_deficit has just been raised to at least the new margin. -/
def momentumStepAmended (home_team away_team : String) (st : MomentumState) (p : Play) :
    MomentumState × Option MomentumShift :=
  let margin : Int := (p.homeScore : Int) - (p.awayScore : Int)
  let current : Leader := leaderOf p
  let maxDef : Nat :=
    if current = .home then max st.maxDeficit margin.natAbs
    else if current = .away then max st.maxDeficit margin.natAbs
    else st.maxDeficit
  match st.previousLeader with
  | some prev =>
    if current ≠ .tied ∧ current ≠ prev then
      (⟨some current, 0⟩,
        some ⟨(if current = .home then home_team else away_team), maxDef,
              p.homeScore, p.awayScore, p.quarter⟩)
    else (⟨some current, maxDef⟩, none)
  | none => (⟨some current, maxDef⟩, none)

/-- The amended momentum detector over a full play list. -/
def momentumShiftsAmended (home_team away_team : String) (plays : List Play) :
    List MomentumShift :=
  (plays.foldl
    (fun (acc : MomentumState × List MomentumShift) p =>
      let (st', c) := momentumStepAmended home_team away_team acc.1 p
      (st', acc.2 ++ c.toList))
    (⟨none, 0⟩, [])).2

/-- A transient durable-store failure (timeout or throttling), the
exception class the handler catches around its DynamoDB calls. -/
inductive StoreErr where
  | timeout
  | throttled
deriving Repr, DecidableEq

/-- Embedding of play_already_processed (src/lambda/processing/handler.py):
the argument is the outcome of the single get_item call against the key
(PK, SK).  A successful read reports whether the item exists; an
exception is caught and the play is assumed new (the source comment:
if error, assume new play). -/
def play_already_processed (resp : Except StoreErr (Option Play)) : Bool :=
  match resp with
  | .ok item => item.isSome
  | .error _ => false

/-- The SCORE#CURRENT record per game written by update_current_score. -/
structure ScoreRecord where
  homeScore : Nat
  awayScore : Nat
  quarter : Nat
  gameClock : String
  lastUpdated : String
deriving Repr, DecidableEq

/-- Embedding of update_current_score: the argument outcome is the
result of the single update_item call.  On success the per-game score
record is overwritten with the fields of the play and True is returned;
an exception is caught, the store is left unchanged, and False is
returned.  There is no retry. -/
def update_current_score (score : List (String × ScoreRecord)) (p : Play)
    (outcome : Except StoreErr Unit) : List (String × ScoreRecord) × Bool :=
  match outcome with
  | .ok _ =>
    (upsertA score p.PK ⟨p.homeScore, p.awayScore, p.quarter, p.gameClock, p.timestamp⟩, true)
  | .error _ => (score, false)

/-- Embedding of update_player_stats at the store level: no playerId or
an all-zero delta writes nothing, otherwise the delta is ADDed into the
ledger keyed by (playerId, game PK), starting from zero counters when
the ledger item is absent. -/
def update_player_stats_state (stats : List ((String × String) × PlayerLedger))
    (p : Play) : List ((String × String) × PlayerLedger) :=
  match p.playerId with
  | none => stats
  | some pid =>
    let delta := calculate_stats_delta p
    if delta = zeroDelta then stats
    else
      upsertA stats (pid, p.PK)
        (addDeltaToLedger ((lookupA stats (pid, p.PK)).getD zeroLedger) delta)

/-- The scoring-run pattern the handler detects over recent plays. -/
structure HandlerRunPattern where
  team : String
  points_for : Nat
  points_against : Nat
deriving Repr, DecidableEq

/-- Embedding of detect_scoring_run of the handler: sum the last plays
per team and report a run on a 10-and-at-most-2 differential. -/
def detect_scoring_run_recent (recent_plays : List Play)
    (home_team away_team : String) : Option HandlerRunPattern :=
  let pts := windowPoints home_team away_team recent_plays
  if 10 ≤ pts.1 ∧ pts.2 ≤ 2 then some ⟨home_team, pts.1, pts.2⟩
  else if 10 ≤ pts.2 ∧ pts.1 ≤ 2 then some ⟨away_team, pts.2, pts.1⟩
  else none

/-- Embedding of get_recent_plays: the plays of one game read newest
first by sort key, limited to 15 items. -/
def get_recent_plays (plays : List ((String × String) × Play)) (game_id : String) :
    List Play :=
  (List.insertionSort (fun a b : Play => b.SK ≤ a.SK)
    ((plays.filter (fun kv => kv.1.1 = game_id)).map Prod.snd)).take 15

/-- The durable state the processing pipeline owns: the play records
(the dedup index), the per-game score record, the per-player ledgers,
and the log of scoring-run patterns the handler detected (the handler
reports these without storing them; the log records the triggering). -/
structure PipelineState where
  plays : List ((String × String) × Play)
  score : List (String × ScoreRecord)
  stats : List ((String × String) × PlayerLedger)
  patternLog : List HandlerRunPattern
deriving Repr, DecidableEq

/-- One iteration of the handler loop with the store outcomes of the
dedup read and the score write passed in: when the dedup guard reports
the play as already processed everything is skipped, otherwise the
score is updated, the play stored, the player ledger incremented, and
the scoring-run detector run over the 15 most recent plays. -/
def processPlayFallible (home_team away_team : String) (s : PipelineState) (p : Play)
    (dedupResp : Except StoreErr (Option Play)) (scoreOutcome : Except StoreErr Unit) :
    PipelineState :=
  if play_already_processed dedupResp then s
  else
    let scoreAndFlag := update_current_score s.score p scoreOutcome
    let plays' := upsertA s.plays (p.PK, p.SK) p
    let stats' := update_player_stats_state s.stats p
    let pat := detect_scoring_run_recent (get_recent_plays plays' p.PK) home_team away_team
    { plays := plays', score := scoreAndFlag.1, stats := stats',
      patternLog := s.patternLog ++ pat.toList }

/-- One iteration of the handler loop when the store does not fail: the
dedup response is the actual lookup of the play key and the score write
succeeds. -/
def processPlay (home_team away_team : String) (s : PipelineState) (p : Play) :
    PipelineState :=
  processPlayFallible home_team away_team s p
    (.ok (lookupA s.plays (p.PK, p.SK))) (.ok ())

/-- The same play relabelled to another period, used to state that the
hot streak counter ignores period boundaries. -/
def setQuarter (p : Play) (q : Nat) : Play := { p with quarter := q }

/-- A neutral play with empty text fields, used as the base for the
concrete scenarios below. -/
def basePlay : Play :=
  { PK := "GAME#1", SK := "PLAY#001", text := "", playType := "", action := "",
    scoringPlay := false, pointsScored := 0, playerId := none, playerName := "",
    team := "", quarter := 1, homeScore := 0, awayScore := 0, timestamp := "",
    gameClock := "" }

/-- A play whose cumulative score is tied 0-0. -/
def tiedPlay : Play := { basePlay with SK := "PLAY#001" }

/-- The next play: the home team goes ahead 2-0 directly from the tie. -/
def leadPlay : Play := { basePlay with SK := "PLAY#002", homeScore := 2, awayScore := 0 }

/-- A scoring play worth two points for team H. -/
def homeScoringPlay : Play :=
  { basePlay with scoringPlay := true, pointsScored := 2, team := "H" }

/-- A 100-play window in which team H scores 8 points and team A none:
the concrete input separating the claimed quarter-dominance thresholds
from the source's lookup default. -/
def window100 : List Play :=
  List.replicate 4 homeScoringPlay ++ List.replicate 96 basePlay

/-- A made field goal by player P1 in the given quarter. -/
def makePlay (q : Nat) : Play :=
  { basePlay with playerId := some "P1", playerName := "X", team := "T",
                  action := "made layup", quarter := q }

/-- A missed field goal by player P1. -/
def missPlay : Play :=
  { basePlay with playerId := some "P1", playerName := "X", team := "T",
                  action := "missed layup", quarter := 1 }

/-- A made free throw by player P1: must neither extend nor break a streak. -/
def freeThrowPlay : Play :=
  { basePlay with playerId := some "P1", playerName := "X", team := "T",
                  action := "made free throw", quarter := 1 }

/-- Three makes, a miss, then three more makes by the same player. -/
def twoRunsPlays : List Play :=
  [makePlay 1, makePlay 1, makePlay 1, missPlay, makePlay 1, makePlay 1, makePlay 1]

/-- Five consecutive makes by the same player. -/
def fiveMakesPlays : List Play :=
  [makePlay 1, makePlay 1, makePlay 1, makePlay 1, makePlay 1]

/-- Three consecutive makes whose last one falls in the next period. -/
def crossPeriodPlays : List Play := [makePlay 1, makePlay 1, makePlay 2]

/-- The non-scoring play whose text carries miss, three and free throw
markers at once: the input on which claim C6 and the source disagree. -/
def missedThreeFreeThrowPlay : Play :=
  { basePlay with text := "missed three point free throw" }

/-- A concrete run candidate in quarter 1 for team H. -/
def runH10 : Run :=
  { team := "H", points_for := 10, points_against := 2, window_size := 25,
    quarter := 1, start_play := 0, end_play := 25, window_start_sk := "",
    window_end_sk := "" }

/-- A bigger overlapping candidate for the same quarter and team. -/
def runH12 : Run := { runH10 with points_for := 12, start_play := 3, end_play := 28 }

/-- The empty pipeline state. -/
def emptyState : PipelineState := ⟨[], [], [], []⟩

/-- A pipeline state that already holds the record of basePlay under its
(PK, SK) key. -/
def stateWithBasePlay : PipelineState :=
  ⟨[((basePlay.PK, basePlay.SK), basePlay)], [], [], []⟩

/-- Looking up the key just written finds the written value. -/
theorem lookupA_upsertA_self {κ α : Type} [DecidableEq κ]
    (l : List (κ × α)) (k : κ) (v : α) :
    lookupA (upsertA l k v) k = some v := by
  induction l with
  | nil => simp [upsertA, lookupA]
  | cons kv rest ih =>
    obtain ⟨k0, v0⟩ := kv
    by_cases h : k0 = k
    · simp [upsertA, h, lookupA]
    · simp [upsertA, h, lookupA, ih]

/-- Writing one key leaves lookups of other keys unchanged. -/
theorem lookupA_upsertA_ne {κ α : Type} [DecidableEq κ]
    (l : List (κ × α)) (k k' : κ) (v : α) (h : k' ≠ k) :
    lookupA (upsertA l k v) k' = lookupA l k' := by
  induction l with
  | nil => simp [upsertA, lookupA, Ne.symm h]
  | cons kv rest ih =>
    obtain ⟨k0, v0⟩ := kv
    by_cases hk : k0 = k
    · subst hk
      simp [upsertA, lookupA, Ne.symm h]
    · simp [upsertA, hk, lookupA, ih]

/-- Every member of an upsert is the written pair or an original member. -/
theorem mem_upsertA {κ α : Type} [DecidableEq κ]
    (l : List (κ × α)) (k : κ) (v : α) (x : κ × α) :
    x ∈ upsertA l k v → x = (k, v) ∨ x ∈ l := by
  induction l with
  | nil => simp [upsertA]
  | cons kv rest ih =>
    obtain ⟨k0, v0⟩ := kv
    by_cases hk : k0 = k
    · simp only [upsertA, if_pos hk, List.mem_cons]
      rintro (h | h)
      · exact Or.inl h
      · exact Or.inr (Or.inr h)
    · simp only [upsertA, if_neg hk, List.mem_cons]
      rintro (h | h)
      · exact Or.inr (Or.inl h)
      · rcases ih h with h' | h'
        · exact Or.inl h'
        · exact Or.inr (Or.inr h')

/-- Keys after an upsert come from the original keys or are the new key. -/
theorem keys_mem_upsertA {κ α : Type} [DecidableEq κ]
    (l : List (κ × α)) (k : κ) (v : α) (k' : κ) :
    k' ∈ (upsertA l k v).map Prod.fst → k' = k ∨ k' ∈ l.map Prod.fst := by
  intro h
  obtain ⟨x, hx, rfl⟩ := List.mem_map.mp h
  rcases mem_upsertA l k v x hx with rfl | hx'
  · exact Or.inl rfl
  · exact Or.inr (List.mem_map_of_mem _ hx')

/-- An upsert keeps the no-duplicate-keys property of the list. -/
theorem nodupKeys_upsertA {κ α : Type} [DecidableEq κ]
    (l : List (κ × α)) (k : κ) (v : α)
    (h : (l.map Prod.fst).Nodup) : ((upsertA l k v).map Prod.fst).Nodup := by
  induction l with
  | nil => simp [upsertA]
  | cons kv rest ih =>
    obtain ⟨k0, v0⟩ := kv
    simp only [List.map_cons, List.nodup_cons] at h
    by_cases hk : k0 = k
    · subst hk
      simpa [upsertA, List.nodup_cons] using h
    · simp only [upsertA, if_neg hk, List.map_cons, List.nodup_cons]
      refine ⟨fun hmem => ?_, ih h.2⟩
      rcases keys_mem_upsertA rest k v k0 hmem with h' | h'
      · exact hk h'
      · exact h.1 h'

/-- A successful lookup is a membership witness. -/
theorem lookupA_mem {κ α : Type} [DecidableEq κ]
    (l : List (κ × α)) (k : κ) (v : α) :
    lookupA l k = some v → (k, v) ∈ l := by
  induction l with
  | nil => simp [lookupA]
  | cons kv rest ih =>
    obtain ⟨k0, v0⟩ := kv
    intro h
    rw [lookupA] at h
    by_cases hk : k0 = k
    · rw [if_pos hk] at h
      injection h with h2
      subst hk
      subst h2
      exact List.mem_cons_self _ _
    · rw [if_neg hk] at h
      exact List.mem_cons_of_mem _ (ih h)

/-- Under unique keys, membership determines the lookup. -/
theorem lookupA_of_mem_nodup {κ α : Type} [DecidableEq κ]
    (l : List (κ × α)) (k : κ) (v : α)
    (hnd : (l.map Prod.fst).Nodup) (hmem : (k, v) ∈ l) :
    lookupA l k = some v := by
  induction l with
  | nil => cases hmem
  | cons kv rest ih =>
    obtain ⟨k0, v0⟩ := kv
    simp only [List.map_cons, List.nodup_cons] at hnd
    rcases List.mem_cons.mp hmem with heq | hmem'
    · injection heq with h1 h2
      subst h1
      subst h2
      simp [lookupA]
    · have hk : k0 ≠ k := by
        intro h
        apply hnd.1
        rw [h]
        exact List.mem_map_of_mem Prod.fst hmem'
      simp [lookupA, hk, ih hnd.2 hmem']

/-- A key absent from the key list filters to nothing. -/
theorem filter_key_nil {κ α : Type} [DecidableEq κ]
    (l : List (κ × α)) (k : κ) (h : k ∉ l.map Prod.fst) :
    l.filter (fun kv => decide (kv.1 = k)) = [] := by
  induction l with
  | nil => rfl
  | cons kv rest ih =>
    obtain ⟨k0, v0⟩ := kv
    simp only [List.map_cons, List.mem_cons, not_or] at h
    have hne : k0 ≠ k := fun e => h.1 e.symm
    simp [List.filter_cons, hne, ih h.2]

/-- Under unique keys, a present key matches exactly one entry. -/
theorem filter_key_length_one {κ α : Type} [DecidableEq κ]
    (l : List (κ × α)) (k : κ) (v : α)
    (hnd : (l.map Prod.fst).Nodup) (hmem : (k, v) ∈ l) :
    (l.filter (fun kv => decide (kv.1 = k))).length = 1 := by
  induction l with
  | nil => cases hmem
  | cons kv rest ih =>
    obtain ⟨k0, v0⟩ := kv
    simp only [List.map_cons, List.nodup_cons] at hnd
    rcases List.mem_cons.mp hmem with heq | hmem'
    · injection heq with h1 h2
      subst h1
      simp [List.filter_cons, filter_key_nil rest k hnd.1]
    · have hk : k0 ≠ k := by
        intro h
        apply hnd.1
        rw [h]
        exact List.mem_map_of_mem Prod.fst hmem'
      simp [List.filter_cons, hk, ih hnd.2 hmem']

/-- A scan that starts with a current best stays defined. -/
theorem bestOf_some_isSome {κ α : Type} [DecidableEq κ]
    (key : α → κ) (meas : α → Nat) (k : κ) :
    ∀ (l : List α) (cur : Option α), cur.isSome → (bestOf key meas k l cur).isSome := by
  intro l
  induction l with
  | nil => intro cur h; simpa [bestOf] using h
  | cons x rest ih =>
    intro cur h
    simp only [bestOf]
    by_cases hx : key x = k
    · rw [if_pos hx]
      cases cur with
      | none => cases h
      | some b =>
        refine ih _ ?_
        simp only [bestUpd]
        by_cases hmb : meas b < meas x <;> simp [hmb]
    · rw [if_neg hx]
      exact ih cur h

/-- A matching candidate makes the scan defined. -/
theorem bestOf_isSome_of_mem {κ α : Type} [DecidableEq κ]
    (key : α → κ) (meas : α → Nat) (k : κ) :
    ∀ (l : List α) (cur : Option α) (a : α), a ∈ l → key a = k →
      (bestOf key meas k l cur).isSome := by
  intro l
  induction l with
  | nil => intro cur a h; cases h
  | cons x rest ih =>
    intro cur a hmem hk
    simp only [bestOf]
    rcases List.mem_cons.mp hmem with rfl | hmem'
    · rw [if_pos hk]
      apply bestOf_some_isSome key meas k rest
      cases cur with
      | none => rfl
      | some b =>
        simp only [bestUpd]
        by_cases hmb : meas b < meas a <;> simp [hmb]
    · exact ih _ a hmem' hk

/-- What the scan returns: a matching candidate from the list or the
starting best, it dominates the measure of every matching candidate,
and it dominates the starting best. -/
theorem bestOf_spec {κ α : Type} [DecidableEq κ]
    (key : α → κ) (meas : α → Nat) (k : κ) :
    ∀ (l : List α) (cur : Option α) (a : α), bestOf key meas k l cur = some a →
      ((a ∈ l ∧ key a = k) ∨ cur = some a) ∧
      (∀ b ∈ l, key b = k → meas b ≤ meas a) ∧
      (∀ c, cur = some c → meas c ≤ meas a) := by
  intro l
  induction l with
  | nil =>
    intro cur a h
    simp only [bestOf] at h
    refine ⟨Or.inr h, by simp, fun c hc => ?_⟩
    rw [h] at hc
    injection hc with h2
    rw [h2]
  | cons x rest ih =>
    intro cur a h
    simp only [bestOf] at h
    by_cases hx : key x = k
    · rw [if_pos hx] at h
      cases cur with
      | none =>
        simp only [bestUpd] at h
        obtain ⟨hmem, hmax, hdom⟩ := ih _ a h
        have hxa : meas x ≤ meas a := hdom x rfl
        refine ⟨?_, ?_, ?_⟩
        · rcases hmem with ⟨ha, hka⟩ | heq
          · exact Or.inl ⟨List.mem_cons_of_mem _ ha, hka⟩
          · injection heq with h2
            subst h2
            exact Or.inl ⟨List.mem_cons_self _ _, hx⟩
        · intro b hb hkb
          rcases List.mem_cons.mp hb with rfl | hb'
          · exact hxa
          · exact hmax b hb' hkb
        · intro c hc
          cases hc
      | some b0 =>
        simp only [bestUpd] at h
        by_cases hm : meas b0 < meas x
        · rw [if_pos hm] at h
          obtain ⟨hmem, hmax, hdom⟩ := ih _ a h
          have hxa : meas x ≤ meas a := hdom x rfl
          refine ⟨?_, ?_, ?_⟩
          · rcases hmem with ⟨ha, hka⟩ | heq
            · exact Or.inl ⟨List.mem_cons_of_mem _ ha, hka⟩
            · injection heq with h2
              subst h2
              exact Or.inl ⟨List.mem_cons_self _ _, hx⟩
          · intro b hb hkb
            rcases List.mem_cons.mp hb with rfl | hb'
            · exact hxa
            · exact hmax b hb' hkb
          · intro c hc
            injection hc with h2
            subst h2
            exact le_trans (le_of_lt hm) hxa
        · rw [if_neg hm] at h
          obtain ⟨hmem, hmax, hdom⟩ := ih _ a h
          have hb0a : meas b0 ≤ meas a := hdom b0 rfl
          refine ⟨?_, ?_, ?_⟩
          · rcases hmem with ⟨ha, hka⟩ | heq
            · exact Or.inl ⟨List.mem_cons_of_mem _ ha, hka⟩
            · exact Or.inr heq
          · intro b hb hkb
            rcases List.mem_cons.mp hb with rfl | hb'
            · exact le_trans (Nat.le_of_not_lt hm) hb0a
            · exact hmax b hb' hkb
          · intro c hc
            injection hc with h2
            subst h2
            exact hb0a
    · rw [if_neg hx] at h
      obtain ⟨hmem, hmax, hdom⟩ := ih _ a h
      refine ⟨?_, ?_, ?_⟩
      · rcases hmem with ⟨ha, hka⟩ | heq
        · exact Or.inl ⟨List.mem_cons_of_mem _ ha, hka⟩
        · exact Or.inr heq
      · intro b hb hkb
        rcases List.mem_cons.mp hb with rfl | hb'
        · exact absurd hkb hx
        · exact hmax b hb' hkb
      · exact hdom

/-- One best-by-key step answers lookups like one best-scan step. -/
theorem lookupA_bestStep {κ α : Type} [DecidableEq κ]
    (key : α → κ) (meas : α → Nat) (acc : List (κ × α)) (a : α) (k : κ) :
    lookupA (bestStep key meas acc a) k =
      (if key a = k then bestUpd meas (lookupA acc k) a else lookupA acc k) := by
  by_cases hak : key a = k
  · rw [if_pos hak]
    rw [bestStep, hak]
    cases hl : lookupA acc k with
    | none =>
      rw [Option.elim_none]
      simp only [bestUpd]
      exact lookupA_upsertA_self acc k a
    | some b =>
      rw [Option.elim_some]
      simp only [bestUpd]
      by_cases hm : meas b < meas a
      · rw [if_pos hm, if_pos hm]
        exact lookupA_upsertA_self acc k a
      · rw [if_neg hm, if_neg hm]
        exact hl
  · rw [if_neg hak]
    rw [bestStep]
    cases hl : lookupA acc (key a) with
    | none =>
      rw [Option.elim_none]
      exact lookupA_upsertA_ne acc (key a) k a (fun e => hak e.symm)
    | some b =>
      rw [Option.elim_some]
      by_cases hm : meas b < meas a
      · rw [if_pos hm]
        exact lookupA_upsertA_ne acc (key a) k a (fun e => hak e.symm)
      · rw [if_neg hm]

/-- One best-by-key step only adds the candidate under its own key. -/
theorem mem_bestStep {κ α : Type} [DecidableEq κ]
    (key : α → κ) (meas : α → Nat) (acc : List (κ × α)) (a : α) (e : κ × α) :
    e ∈ bestStep key meas acc a → e = (key a, a) ∨ e ∈ acc := by
  intro h
  rw [bestStep] at h
  cases hl : lookupA acc (key a) with
  | none =>
    rw [hl, Option.elim_none] at h
    exact mem_upsertA acc (key a) a e h
  | some b =>
    rw [hl, Option.elim_some] at h
    by_cases hm : meas b < meas a
    · rw [if_pos hm] at h
      exact mem_upsertA acc (key a) a e h
    · rw [if_neg hm] at h
      exact Or.inr h

/-- One best-by-key step keeps keys unique. -/
theorem nodupKeys_bestStep {κ α : Type} [DecidableEq κ]
    (key : α → κ) (meas : α → Nat) (acc : List (κ × α)) (a : α)
    (h : (acc.map Prod.fst).Nodup) :
    ((bestStep key meas acc a).map Prod.fst).Nodup := by
  rw [bestStep]
  cases hl : lookupA acc (key a) with
  | none =>
    rw [Option.elim_none]
    exact nodupKeys_upsertA acc (key a) a h
  | some b =>
    rw [Option.elim_some]
    by_cases hm : meas b < meas a
    · rw [if_pos hm]
      exact nodupKeys_upsertA acc (key a) a h
    · rw [if_neg hm]
      exact h

/-- The dict the best-by-key fold builds answers every key with the
left-to-right best scan over the candidates. -/
theorem lookupA_bestFold {κ α : Type} [DecidableEq κ]
    (key : α → κ) (meas : α → Nat) :
    ∀ (l : List α) (acc : List (κ × α)) (k : κ),
      lookupA (bestFold key meas acc l) k = bestOf key meas k l (lookupA acc k) := by
  intro l
  induction l with
  | nil => intro acc k; rfl
  | cons a rest ih =>
    intro acc k
    simp only [bestFold, bestOf]
    rw [ih, lookupA_bestStep]

/-- Every entry of the best-by-key fold comes from the starting dict or
is a candidate stored under its own key. -/
theorem mem_bestFold {κ α : Type} [DecidableEq κ]
    (key : α → κ) (meas : α → Nat) :
    ∀ (l : List α) (acc : List (κ × α)) (e : κ × α),
      e ∈ bestFold key meas acc l → e ∈ acc ∨ (e.1 = key e.2 ∧ e.2 ∈ l) := by
  intro l
  induction l with
  | nil => intro acc e h; exact Or.inl h
  | cons a rest ih =>
    intro acc e h
    simp only [bestFold] at h
    rcases ih _ e h with h' | ⟨h1, h2⟩
    · rcases mem_bestStep key meas acc a e h' with rfl | h''
      · exact Or.inr ⟨rfl, List.mem_cons_self _ _⟩
      · exact Or.inl h''
    · exact Or.inr ⟨h1, List.mem_cons_of_mem _ h2⟩

/-- The best-by-key fold keeps keys unique. -/
theorem nodupKeys_bestFold {κ α : Type} [DecidableEq κ]
    (key : α → κ) (meas : α → Nat) :
    ∀ (l : List α) (acc : List (κ × α)),
      (acc.map Prod.fst).Nodup → ((bestFold key meas acc l).map Prod.fst).Nodup := by
  intro l
  induction l with
  | nil => intro acc h; exact h
  | cons a rest ih =>
    intro acc h
    simp only [bestFold]
    exact ih _ (nodupKeys_bestStep key meas acc a h)

/-- Filtering the values of a key-consistent dict by key equals
filtering the entries. -/
theorem map_snd_filter_key {κ α : Type} [DecidableEq κ]
    (key : α → κ) (k : κ) :
    ∀ (L : List (κ × α)), (∀ e ∈ L, e.1 = key e.2) →
      (L.map Prod.snd).filter (fun x => decide (key x = k)) =
        (L.filter (fun e => decide (e.1 = k))).map Prod.snd := by
  intro L
  induction L with
  | nil => intro _; rfl
  | cons e rest ih =>
    intro hcons
    obtain ⟨k0, v0⟩ := e
    have hk0 : k0 = key v0 := hcons (k0, v0) (List.mem_cons_self _ _)
    have hrest : ∀ e ∈ rest, e.1 = key e.2 :=
      fun e he => hcons e (List.mem_cons_of_mem _ he)
    simp only [List.map_cons, List.filter_cons]
    by_cases hkk : key v0 = k
    · rw [hk0]
      simp [hkk, ih hrest]
    · rw [hk0]
      simp [hkk, ih hrest]

/-- Every value of the deduplicating fold is one of the candidates and
dominates every candidate sharing its key. -/
theorem bestFold_mem_max {κ α : Type} [DecidableEq κ]
    (key : α → κ) (meas : α → Nat) (l : List α) (r : α)
    (hr : r ∈ (bestFold key meas [] l).map Prod.snd) :
    r ∈ l ∧ ∀ b ∈ l, key b = key r → meas b ≤ meas r := by
  obtain ⟨e, hmem, he⟩ := List.mem_map.mp hr
  obtain ⟨k0, r0⟩ := e
  simp only at he
  subst he
  have hkey : k0 = key r0 := by
    rcases mem_bestFold key meas l [] (k0, r0) hmem with h | ⟨h1, _⟩
    · cases h
    · exact h1
  subst hkey
  have hnodup := nodupKeys_bestFold key meas l [] List.nodup_nil
  have hlook : lookupA (bestFold key meas [] l) (key r0) = some r0 :=
    lookupA_of_mem_nodup _ _ _ hnodup hmem
  rw [lookupA_bestFold] at hlook
  obtain ⟨hmem2, hmax, _⟩ := bestOf_spec key meas (key r0) l (lookupA [] (key r0)) r0 hlook
  rcases hmem2 with ⟨hin, _⟩ | hfalse
  · exact ⟨hin, hmax⟩
  · cases hfalse

/-- Each key occurring among the candidates owns exactly one value in
the deduplicating fold. -/
theorem bestFold_exactly_one {κ α : Type} [DecidableEq κ]
    (key : α → κ) (meas : α → Nat) (l : List α) (c : α) (hc : c ∈ l) :
    (((bestFold key meas [] l).map Prod.snd).filter
        (fun x => decide (key x = key c))).length = 1 := by
  have hsome : (bestOf key meas (key c) l (lookupA [] (key c))).isSome :=
    bestOf_isSome_of_mem key meas (key c) l _ c hc rfl
  rw [← lookupA_bestFold] at hsome
  obtain ⟨a, ha⟩ := Option.isSome_iff_exists.mp hsome
  have hmem : (key c, a) ∈ bestFold key meas [] l := lookupA_mem _ _ _ ha
  have hnodup := nodupKeys_bestFold key meas l [] List.nodup_nil
  have hcons : ∀ e ∈ bestFold key meas [] l, e.1 = key e.2 := by
    intro e he
    rcases mem_bestFold key meas l [] e he with h | ⟨h1, _⟩
    · cases h
    · exact h1
  rw [map_snd_filter_key key (key c) _ hcons, List.length_map]
  exact filter_key_length_one _ _ _ hnodup hmem

/-- A guarded add of a positive amount is a plain add. -/
theorem condAdd (x a : Nat) : (if 0 < a then x + a else x) = x + a := by
  split <;> omega

/-- The ADD update expression is a plain componentwise addition. -/
theorem addDeltaToLedger_eq (l : PlayerLedger) (d : StatsDelta) :
    addDeltaToLedger l d =
      ⟨l.points + d.points, l.fgMade + d.fgMade, l.fgAttempted + d.fgAttempted,
       l.threeMade + d.threeMade, l.threeAttempted + d.threeAttempted,
       l.fouls + d.fouls⟩ := by
  simp [addDeltaToLedger, condAdd]

/-- Every delta the accumulator produces satisfies the shooting
inequalities. -/
theorem delta_shooting_inv (p : Play) : deltaShootingInv (calculate_stats_delta p) := by
  unfold calculate_stats_delta deltaShootingInv
  cases hs : p.scoringPlay <;>
    cases hpts : decide (0 < p.pointsScored) <;>
      cases h3 : isThreeText p <;>
        cases hf : isFreeThrowPlay p <;>
          cases hm : isMissOrBlockText p <;>
            cases hfo : isFoulText p <;>
              simp [hs, hpts, h3, hf, hm, hfo, zeroDelta]

/-- C6 (corrected): the claim as stated disagrees with the source on a
non-scoring play whose text marks it a missed three and a free throw at
once: the source counts a field-goal and three-point attempt for it,
the claimed rule counts nothing. -/
theorem stats_delta_claim_counterexample :
    calculate_stats_delta missedThreeFreeThrowPlay = ⟨0, 0, 1, 0, 1, 0⟩ ∧
    statsDeltaClaim missedThreeFreeThrowPlay = zeroDelta ∧
    calculate_stats_delta missedThreeFreeThrowPlay ≠
      statsDeltaClaim missedThreeFreeThrowPlay := by
  refine ⟨by decide, by decide, by decide⟩

/-- C6 (amended): for every play the stat delta of calculate_stats_delta
equals the field-by-field rule of the claim once its miss branch lets a
three-point attempt count fgAttempted and threeAttempted regardless of
the free-throw test. -/
theorem stats_delta_matches_amended (p : Play) :
    calculate_stats_delta p = statsDeltaAmended p := by
  unfold calculate_stats_delta statsDeltaAmended
  cases hs : p.scoringPlay <;>
    cases hpts : decide (0 < p.pointsScored) <;>
      cases h3 : isThreeText p <;>
        cases hf : isFreeThrowPlay p <;>
          cases hm : isMissOrBlockText p <;>
            cases hfo : isFoulText p <;>
              simp [hs, hpts, h3, hf, hm, hfo, zeroDelta]

/-- C8 (confirmed): every delta satisfies the shooting inequalities, a
ledger satisfying them still satisfies them after the ADD-style
increment of any delta of the accumulator, and the increment never
decreases any counter. -/
theorem ledger_shooting_inv_preserved (p : Play) (l : PlayerLedger)
    (h : ledgerShootingInv l) :
    deltaShootingInv (calculate_stats_delta p) ∧
    ledgerShootingInv (addDeltaToLedger l (calculate_stats_delta p)) ∧
    l.points ≤ (addDeltaToLedger l (calculate_stats_delta p)).points ∧
    l.fgMade ≤ (addDeltaToLedger l (calculate_stats_delta p)).fgMade ∧
    l.fgAttempted ≤ (addDeltaToLedger l (calculate_stats_delta p)).fgAttempted ∧
    l.threeMade ≤ (addDeltaToLedger l (calculate_stats_delta p)).threeMade ∧
    l.threeAttempted ≤ (addDeltaToLedger l (calculate_stats_delta p)).threeAttempted ∧
    l.fouls ≤ (addDeltaToLedger l (calculate_stats_delta p)).fouls := by
  have hd := delta_shooting_inv p
  unfold ledgerShootingInv at h ⊢
  unfold deltaShootingInv at hd
  refine ⟨delta_shooting_inv p, ?_⟩
  rw [addDeltaToLedger_eq]
  simp only
  omega

/-- Witness for C8 at a concrete ledger and play. -/
theorem ledger_shooting_inv_preserved_witness :
    ledgerShootingInv (addDeltaToLedger zeroLedger (calculate_stats_delta missedThreeFreeThrowPlay)) :=
  (ledger_shooting_inv_preserved missedThreeFreeThrowPlay zeroLedger
    ⟨Nat.le_refl 0, Nat.le_refl 0, Nat.le_refl 0⟩).2.1

/-- C2 (confirmed): reprocessing a play whose record is already stored
under its (PK, SK) key leaves the whole pipeline state — play store,
game score, player ledgers and pattern triggering — unchanged, so
processing the same play twice equals processing it once. -/
theorem pipeline_idempotent (home_team away_team : String) (s : PipelineState) (p : Play) :
    processPlay home_team away_team (processPlay home_team away_team s p) p =
      processPlay home_team away_team s p ∧
    ((lookupA s.plays (p.PK, p.SK)).isSome = true →
      processPlay home_team away_team s p = s) := by
  have hshort : ∀ (s2 : PipelineState), (lookupA s2.plays (p.PK, p.SK)).isSome = true →
      processPlay home_team away_team s2 p = s2 := by
    intro s2 h
    unfold processPlay processPlayFallible play_already_processed
    simp [h]
  refine ⟨?_, hshort s⟩
  by_cases hc : (lookupA s.plays (p.PK, p.SK)).isSome = true
  · rw [hshort s hc, hshort s hc]
  · apply hshort
    unfold processPlay processPlayFallible play_already_processed
    rw [if_neg (by simpa using hc)]
    simp [lookupA_upsertA_self]

/-- Witness for C2: a state already holding the play absorbs it. -/
theorem pipeline_idempotent_witness :
    processPlay "H" "A" stateWithBasePlay basePlay = stateWithBasePlay :=
  (pipeline_idempotent "H" "A" stateWithBasePlay basePlay).2 (by decide)

/-- C9 (corrected): a store failure in the dedup guard is swallowed and
reported as the play being new, indistinguishable from an absent
record, and a failed score write leaves the score store unchanged
while returning False — no retry and no surfaced failure. -/
theorem store_failure_counterexample :
    play_already_processed (Except.error StoreErr.timeout) = false ∧
    play_already_processed (Except.ok none) = false ∧
    update_current_score [] basePlay (Except.error StoreErr.timeout) = ([], false) := by
  exact ⟨rfl, rfl, rfl⟩

/-- C9 (amended): the single store attempt of the dedup guard, when it
fails, makes the pipeline treat the play exactly as new, and a failed
single score-write attempt leaves the score record untouched while play
storage, stat accumulation and detector triggering proceed exactly as
on success; no exception escapes (both functions are total). -/
theorem store_failure_single_attempt (home_team away_team : String)
    (s : PipelineState) (p : Play) (e : StoreErr) (o : Except StoreErr Unit) :
    processPlayFallible home_team away_team s p (.error e) o =
      processPlayFallible home_team away_team s p (.ok none) o ∧
    (processPlayFallible home_team away_team s p (.ok none) (.error e)).score = s.score ∧
    (processPlayFallible home_team away_team s p (.ok none) (.error e)).plays =
      (processPlayFallible home_team away_team s p (.ok none) (.ok ())).plays ∧
    (processPlayFallible home_team away_team s p (.ok none) (.error e)).stats =
      (processPlayFallible home_team away_team s p (.ok none) (.ok ())).stats ∧
    (processPlayFallible home_team away_team s p (.ok none) (.error e)).patternLog =
      (processPlayFallible home_team away_team s p (.ok none) (.ok ())).patternLog := by
  unfold processPlayFallible play_already_processed update_current_score
  simp

/-- A home leader means a strictly positive margin. -/
theorem leaderOf_home_pos (p : Play) (h : leaderOf p = Leader.home) :
    0 < (p.homeScore : Int) - (p.awayScore : Int) := by
  unfold leaderOf at h
  by_cases h1 : 0 < (p.homeScore : Int) - (p.awayScore : Int)
  · exact h1
  · rw [if_neg h1] at h
    split at h <;> cases h

/-- An away leader means a strictly negative margin. -/
theorem leaderOf_away_neg (p : Play) (h : leaderOf p = Leader.away) :
    (p.homeScore : Int) - (p.awayScore : Int) < 0 := by
  unfold leaderOf at h
  by_cases h1 : 0 < (p.homeScore : Int) - (p.awayScore : Int)
  · rw [if_pos h1] at h
    cases h
  · rw [if_neg h1] at h
    by_cases h2 : (p.homeScore : Int) - (p.awayScore : Int) < 0
    · exact h2
    · rw [if_neg h2] at h
      cases h

/-- The max-deficit threshold of the source is dead: at every lead
change max_deficit has just been raised to at least the new absolute
margin, which is at least 1, so the guarded and unguarded steps agree
on every input. -/
theorem momentumStep_eq_amended (home_team away_team : String)
    (st : MomentumState) (p : Play) :
    momentumStep home_team away_team st p =
      momentumStepAmended home_team away_team st p := by
  obtain ⟨prevL, maxD⟩ := st
  cases prevL with
  | none => rfl
  | some prev =>
    cases hL : leaderOf p with
    | tied => simp [momentumStep, momentumStepAmended, hL]
    | home =>
      have hpos := leaderOf_home_pos p hL
      by_cases hprev : prev = Leader.home
      · simp [momentumStep, momentumStepAmended, hL, hprev]
      · have hge : 1 ≤ max maxD ((p.homeScore : Int) - (p.awayScore : Int)).natAbs := by
          omega
        simp [momentumStep, momentumStepAmended, hL, hge, Ne.symm hprev]
    | away =>
      have hneg := leaderOf_away_neg p hL
      by_cases hprev : prev = Leader.away
      · simp [momentumStep, momentumStepAmended, hL, hprev]
      · have hge : 1 ≤ max maxD ((p.homeScore : Int) - (p.awayScore : Int)).natAbs := by
          omega
        simp [momentumStep, momentumStepAmended, hL, hge, Ne.symm hprev]

/-- C1 (amended): the detector equals the amended description — a shift
is emitted exactly when a previous leader exists (it may be tied) and
the current leader is neither tied nor equal to it; the max_deficit ≥ 1
threshold never blocks an emission because max_deficit is first raised
to the new absolute margin, and max_deficit is reset to 0 exactly at
emissions. -/
theorem momentum_shift_amended (home_team away_team : String) (plays : List Play)
    (st : MomentumState) (p : Play) (prev : Leader) :
    detect_momentum_shifts home_team away_team plays =
      momentumShiftsAmended home_team away_team plays ∧
    (st.previousLeader = some prev →
      (((momentumStep home_team away_team st p).2).isSome ↔
        (leaderOf p ≠ Leader.tied ∧ leaderOf p ≠ prev))) ∧
    (st.previousLeader = none → (momentumStep home_team away_team st p).2 = none) ∧
    ((momentumStep home_team away_team st p).2.isSome = true →
      (momentumStep home_team away_team st p).1.maxDeficit = 0) := by
  obtain ⟨prevL, maxD⟩ := st
  refine ⟨?_, ?_, ?_, ?_⟩
  · unfold detect_momentum_shifts momentumShiftsAmended
    simp only [momentumStep_eq_amended]
  · intro hprev
    simp only at hprev
    subst hprev
    rw [momentumStep_eq_amended]
    by_cases hch : leaderOf p ≠ Leader.tied ∧ leaderOf p ≠ prev
    · simp [momentumStepAmended, hch]
    · simp [momentumStepAmended, hch]
  · intro hprev
    simp only at hprev
    subst hprev
    rfl
  · intro hsome
    rw [momentumStep_eq_amended] at hsome ⊢
    cases prevL with
    | none => cases hsome
    | some prev2 =>
      by_cases hch : leaderOf p ≠ Leader.tied ∧ leaderOf p ≠ prev2
      · simp [momentumStepAmended, hch]
      · rw [momentumStepAmended.eq_def] at hsome
        simp [hch] at hsome

/-- Witness for C1 at a tied-to-home lead change. -/
theorem momentum_shift_amended_witness :
    ((momentumStep "H" "A" ⟨some Leader.tied, 0⟩ leadPlay).2).isSome := by
  have h :=
    (momentum_shift_amended "H" "A" [] ⟨some Leader.tied, 0⟩ leadPlay Leader.tied).2.1 rfl
  exact h.mpr (by decide)

/-- C1 (counterexample): immediately after a tie the first go-ahead
basket emits a momentum shift even though the previous leader is tied
and the preceding deficit was 0 — the recorded deficit is the new lead
itself. -/
theorem momentum_shift_claim_counterexample :
    leaderOf tiedPlay = Leader.tied ∧
    detect_momentum_shifts "H" "A" [tiedPlay, leadPlay] =
      [⟨"H", 2, 2, 0, 1⟩] := by
  exact ⟨rfl, by decide⟩

/-- Deleting a key makes its lookup fail. -/
theorem lookupA_eraseA_self {κ α : Type} [DecidableEq κ]
    (l : List (κ × α)) (k : κ) : lookupA (eraseA l k) k = none := by
  induction l with
  | nil => rfl
  | cons kv rest ih =>
    obtain ⟨k0, v0⟩ := kv
    by_cases hk : k0 = k
    · simp [eraseA, List.filter_cons, hk] at ih ⊢
      exact ih
    · simp only [eraseA, List.filter_cons] at ih ⊢
      simp [hk, lookupA, ih]

/-- C4 (confirmed): one detector step increments the counter of the
shooter on a made non-free-throw shot and emits a candidate carrying
the new count exactly when it reaches 3, deletes the counter on a
missed non-free-throw shot, leaves everything untouched on any other
play, and on makes-miss-makes the candidate stream carries two separate
3-streaks and never a combined 6-streak. -/
theorem hot_streak_step_spec :
    (∀ (st : List (String × StreakState)) (p : Play) (pid : String),
      p.playerId = some pid → actionMadeShot p = true →
        ((lookupA (hotStreakStep st p).1 pid).map StreakState.count =
          some (((lookupA st pid).map StreakState.count).getD 0 + 1)) ∧
        ((hotStreakStep st p).2.map HotStreak.consecutive_makes =
          (if 3 ≤ ((lookupA st pid).map StreakState.count).getD 0 + 1
           then some (((lookupA st pid).map StreakState.count).getD 0 + 1)
           else none))) ∧
    (∀ (st : List (String × StreakState)) (p : Play) (pid : String),
      p.playerId = some pid → actionMadeShot p = false → actionMissedShot p = true →
        lookupA (hotStreakStep st p).1 pid = none ∧ (hotStreakStep st p).2 = none) ∧
    (∀ (st : List (String × StreakState)) (p : Play),
      (p.playerId = none ∨ (actionMadeShot p = false ∧ actionMissedShot p = false)) →
        (hotStreakStep st p).1 = st ∧ (hotStreakStep st p).2 = none) ∧
    (hotStreakCandidates twoRunsPlays).map HotStreak.consecutive_makes = [3, 3] := by
  refine ⟨?_, ?_, ?_, by decide⟩
  · intro st p pid hpid hmade
    cases hlk : lookupA st pid with
    | none =>
      simp [hotStreakStep, hpid, hmade, hlk, apply_ite, lookupA_upsertA_self]
    | some s =>
      simp [hotStreakStep, hpid, hmade, hlk, apply_ite, lookupA_upsertA_self]
  · intro st p pid hpid hmade hmiss
    simp [hotStreakStep, hpid, hmade, hmiss, lookupA_eraseA_self]
  · intro st p h
    rcases h with hnone | ⟨hmade, hmiss⟩
    · simp [hotStreakStep, hnone]
    · cases hpid : p.playerId with
      | none => simp [hotStreakStep, hpid]
      | some pid => simp [hotStreakStep, hpid, hmade, hmiss]

/-- Witness for C4: a first make creates a counter at 1 and emits
nothing. -/
theorem hot_streak_step_spec_witness :
    (lookupA (hotStreakStep [] (makePlay 1)).1 "P1").map StreakState.count = some 1 := by
  have h := hot_streak_step_spec.1 [] (makePlay 1) "P1" rfl (by decide)
  simpa using h.1

/-- Relabelling the period keeps the play identity field. -/
theorem setQuarter_playerId (p : Play) (q : Nat) :
    (setQuarter p q).playerId = p.playerId := rfl

/-- Relabelling the period sets the quarter field. -/
theorem setQuarter_quarter (p : Play) (q : Nat) :
    (setQuarter p q).quarter = q := rfl

/-- Relabelling the period keeps the made-shot classification. -/
theorem actionMadeShot_setQuarter (p : Play) (q : Nat) :
    actionMadeShot (setQuarter p q) = actionMadeShot p := rfl

/-- Relabelling the period keeps the missed-shot classification. -/
theorem actionMissedShot_setQuarter (p : Play) (q : Nat) :
    actionMissedShot (setQuarter p q) = actionMissedShot p := rfl

/-- C10 (confirmed): a period boundary never touches the streak state —
the resulting counters and the emitted candidate length are unchanged
under any relabelling of the play's quarter, the emitted candidate
carries the quarter of the triggering play, and three makes in quarters
1, 1, 2 emit one candidate of length 3 labelled quarter 2. -/
theorem hot_streak_period_agnostic :
    (∀ (st : List (String × StreakState)) (p : Play) (q : Nat) (pid2 : String),
      (lookupA (hotStreakStep st (setQuarter p q)).1 pid2).map StreakState.count =
        (lookupA (hotStreakStep st p).1 pid2).map StreakState.count) ∧
    (∀ (st : List (String × StreakState)) (p : Play) (q : Nat),
      ((hotStreakStep st (setQuarter p q)).2).map HotStreak.consecutive_makes =
        ((hotStreakStep st p).2).map HotStreak.consecutive_makes) ∧
    (∀ (st : List (String × StreakState)) (p : Play) (c : HotStreak),
      (hotStreakStep st p).2 = some c → c.quarter = p.quarter) ∧
    ((hotStreakCandidates crossPeriodPlays).map
        (fun c => (c.consecutive_makes, c.quarter)) = [(3, 2)]) := by
  refine ⟨?_, ?_, ?_, by decide⟩
  · intro st p q pid2
    cases hpid : p.playerId with
    | none => simp [hotStreakStep, setQuarter_playerId, hpid]
    | some pid =>
      by_cases hmade : actionMadeShot p
      · cases hlk : lookupA st pid with
        | none =>
          by_cases hpp : pid = pid2
          · subst hpp
            simp [hotStreakStep, setQuarter_playerId, actionMadeShot_setQuarter, hpid,
              hmade, hlk, apply_ite, lookupA_upsertA_self]
          · simp [hotStreakStep, setQuarter_playerId, actionMadeShot_setQuarter, hpid,
              hmade, hlk, apply_ite, lookupA_upsertA_ne st pid pid2 _ (Ne.symm hpp)]
        | some s =>
          by_cases hpp : pid = pid2
          · subst hpp
            simp [hotStreakStep, setQuarter_playerId, actionMadeShot_setQuarter, hpid,
              hmade, hlk, apply_ite, lookupA_upsertA_self]
          · simp [hotStreakStep, setQuarter_playerId, actionMadeShot_setQuarter, hpid,
              hmade, hlk, apply_ite, lookupA_upsertA_ne st pid pid2 _ (Ne.symm hpp)]
      · by_cases hmiss : actionMissedShot p <;>
          simp [hotStreakStep, setQuarter_playerId, actionMadeShot_setQuarter,
            actionMissedShot_setQuarter, hpid, hmade, hmiss]
  · intro st p q
    cases hpid : p.playerId with
    | none => simp [hotStreakStep, setQuarter_playerId, hpid]
    | some pid =>
      by_cases hmade : actionMadeShot p
      · cases hlk : lookupA st pid with
        | none =>
          simp [hotStreakStep, setQuarter_playerId, actionMadeShot_setQuarter, hpid,
            hmade, hlk, apply_ite]
        | some s =>
          simp [hotStreakStep, setQuarter_playerId, actionMadeShot_setQuarter, hpid,
            hmade, hlk, apply_ite]
      · by_cases hmiss : actionMissedShot p <;>
          simp [hotStreakStep, setQuarter_playerId, actionMadeShot_setQuarter,
            actionMissedShot_setQuarter, hpid, hmade, hmiss]
  · intro st p c h
    cases hpid : p.playerId with
    | none => simp [hotStreakStep, hpid] at h
    | some pid =>
      by_cases hmade : actionMadeShot p
      · cases hlk : lookupA st pid with
        | none =>
          simp [hotStreakStep, hpid, hmade, hlk, apply_ite] at h
        | some s =>
          have hstep : (hotStreakStep st p).2 =
              (if 3 ≤ s.count + 1 then
                some ⟨pid, s.player_name, s.team, s.count + 1, p.quarter, p.timestamp⟩
              else none) := by
            simp [hotStreakStep, hpid, hmade, hlk, apply_ite]
          rw [hstep] at h
          by_cases h3 : 3 ≤ s.count + 1
          · rw [if_pos h3] at h
            injection h with h2
            subst h2
            rfl
          · rw [if_neg h3] at h
            cases h
      · by_cases hmiss : actionMissedShot p
        · have hstep : (hotStreakStep st p).2 = none := by
            simp [hotStreakStep, hpid, hmade, hmiss]
          rw [hstep] at h
          cases h
        · have hstep : (hotStreakStep st p).2 = none := by
            simp [hotStreakStep, hpid, hmade, hmiss]
          rw [hstep] at h
          cases h

/-- Witness for C10: a triggering make in quarter 2 yields a candidate
labelled quarter 2. -/
theorem hot_streak_period_agnostic_witness :
    (⟨"P1", "X", "T", 3, 2, ""⟩ : HotStreak).quarter = (makePlay 2).quarter :=
  hot_streak_period_agnostic.2.2.1 [("P1", ⟨2, "X", "T", []⟩)] (makePlay 2) _ (by decide)

/-- C7 (confirmed): after deduplication exactly one candidate per
player survives, it is one of the emitted candidates and carries the
maximum consecutive_makes among that player's candidates; five straight
makes yield exactly one stored streak of length 5. -/
theorem hot_streak_dedup_spec (plays : List Play) :
    (∀ c ∈ detect_hot_streaks plays,
      c ∈ hotStreakCandidates plays ∧
      ∀ b ∈ hotStreakCandidates plays,
        b.player_id = c.player_id → b.consecutive_makes ≤ c.consecutive_makes) ∧
    (∀ c ∈ hotStreakCandidates plays,
      ((detect_hot_streaks plays).filter
          (fun x => decide (x.player_id = c.player_id))).length = 1) ∧
    detect_hot_streaks fiveMakesPlays = [⟨"P1", "X", "T", 5, 1, ""⟩] := by
  refine ⟨?_, ?_, by decide⟩
  · intro c hc
    exact bestFold_mem_max (fun x : HotStreak => x.player_id)
      (fun x => x.consecutive_makes) (hotStreakCandidates plays) c hc
  · intro c hc
    exact bestFold_exactly_one (fun x : HotStreak => x.player_id)
      (fun x => x.consecutive_makes) (hotStreakCandidates plays) c hc

/-- Witness for C7: in the five-make scenario the player owns exactly
one deduplicated streak record. -/
theorem hot_streak_dedup_spec_witness :
    ((detect_hot_streaks fiveMakesPlays).filter
        (fun x => decide (x.player_id =
          (⟨"P1", "X", "T", 3, 1, ""⟩ : HotStreak).player_id))).length = 1 :=
  (hot_streak_dedup_spec fiveMakesPlays).2.1 ⟨"P1", "X", "T", 3, 1, ""⟩ (by decide)

/-- Every threshold row has its opponent cap strictly below its minimum
points, so both teams can never qualify in the same window. -/
theorem runThresholds_snd_lt_fst (w : Nat) :
    (runThresholds w).2 < (runThresholds w).1 := by
  by_cases e1 : w = 25 <;> by_cases e2 : w = 50 <;> by_cases e3 : w = 75 <;>
    by_cases e4 : w = 120 <;> simp [runThresholds, e1, e2, e3, e4]

/-- A window qualifies for a team exactly when that team meets the
minimum and the opponent stays under the cap, for thresholds taken from
the source table. -/
theorem detect_run_iff (window : List Play) (home_team away_team : String) (w : Nat)
    (hne : home_team ≠ away_team) (hp ap mp mo : Nat)
    (hw : windowPoints home_team away_team window = (hp, ap))
    (ht : runThresholds w = (mp, mo)) :
    ((∃ r, detect_run_in_window window home_team away_team w = some r ∧
        r.team = home_team) ↔ (mp ≤ hp ∧ ap ≤ mo)) ∧
    ((∃ r, detect_run_in_window window home_team away_team w = some r ∧
        r.team = away_team) ↔ (mp ≤ ap ∧ hp ≤ mo)) := by
  have hlt : mo < mp := by
    have h2 := runThresholds_snd_lt_fst w
    rw [ht] at h2
    exact h2
  simp only [detect_run_in_window]
  rw [hw, ht]
  dsimp only
  by_cases c1 : mp ≤ hp ∧ ap ≤ mo
  · rw [if_pos c1]
    constructor
    · constructor
      · intro _
        exact c1
      · intro _
        exact ⟨⟨home_team, hp, ap, w⟩, rfl, rfl⟩
    · constructor
      · rintro ⟨r, hr, hteam⟩
        injection hr with h2
        rw [← h2] at hteam
        exact absurd hteam hne
      · rintro ⟨hc1, hc2⟩
        obtain ⟨hc3, hc4⟩ := c1
        omega
  · rw [if_neg c1]
    by_cases c2 : mp ≤ ap ∧ hp ≤ mo
    · rw [if_pos c2]
      constructor
      · constructor
        · rintro ⟨r, hr, hteam⟩
          injection hr with h2
          rw [← h2] at hteam
          exact absurd hteam (Ne.symm hne)
        · rintro ⟨hc1, hc2⟩
          obtain ⟨hc3, hc4⟩ := c2
          omega
      · constructor
        · intro _
          exact c2
        · intro _
          exact ⟨⟨away_team, ap, hp, w⟩, rfl, rfl⟩
    · rw [if_neg c2]
      constructor
      · constructor
        · rintro ⟨r, hr, _⟩
          cases hr
        · intro hcond
          exact absurd hcond c1
      · constructor
        · rintro ⟨r, hr, _⟩
          cases hr
        · intro hcond
          exact absurd hcond c2

/-- C3 (amended): a window of w consecutive plays qualifies as a run
for a team exactly when that team's points reach the minimum and the
opponent stays under the cap, where the thresholds are (8, 2), (16, 4),
(20, 6) for window sizes 25, 50, 75, (20, 8) for size 120 exactly, and
the lookup default (8, 2) for every other size — including every size
of 100 or more other than 120. -/
theorem run_window_spec (window : List Play) (home_team away_team : String) (w : Nat)
    (hne : home_team ≠ away_team) :
    runThresholds 25 = (8, 2) ∧ runThresholds 50 = (16, 4) ∧
    runThresholds 75 = (20, 6) ∧ runThresholds 120 = (20, 8) ∧
    (w ≠ 25 → w ≠ 50 → w ≠ 75 → w ≠ 120 → runThresholds w = (8, 2)) ∧
    ((∃ r, detect_run_in_window window home_team away_team w = some r ∧
        r.team = home_team) ↔
      ((runThresholds w).1 ≤ (windowPoints home_team away_team window).1 ∧
        (windowPoints home_team away_team window).2 ≤ (runThresholds w).2)) ∧
    ((∃ r, detect_run_in_window window home_team away_team w = some r ∧
        r.team = away_team) ↔
      ((runThresholds w).1 ≤ (windowPoints home_team away_team window).2 ∧
        (windowPoints home_team away_team window).1 ≤ (runThresholds w).2)) := by
  have hiff := detect_run_iff window home_team away_team w hne
    (windowPoints home_team away_team window).1
    (windowPoints home_team away_team window).2
    (runThresholds w).1 (runThresholds w).2 rfl rfl
  refine ⟨rfl, rfl, rfl, rfl, ?_, hiff.1, hiff.2⟩
  intro h25 h50 h75 h120
  simp [runThresholds, h25, h50, h75, h120]

/-- Witness for C3 at the empty window and distinct team names. -/
theorem run_window_spec_witness :
    runThresholds 120 = (20, 8) := by
  have h := run_window_spec [] "H" "A" 25 (by decide)
  exact h.2.2.2.1

/-- C3 (counterexample): a 100-play window in which the home team
scores 8 while the opponent scores 0 is reported as a run although the
claimed quarter-dominance thresholds for w ≥ 100 demand at least 20
points: the source looks up size 100 in its table, misses, and falls
back to (8, 2). -/
theorem run_window_claim_counterexample :
    detect_run_in_window window100 "H" "A" 100 = some ⟨"H", 8, 0, 100⟩ ∧
    windowPoints "H" "A" window100 = (8, 0) ∧
    runThresholds 100 = (8, 2) ∧ ¬(20 ≤ 8) := by
  refine ⟨by decide, by decide, by decide, by decide⟩

/-- C5 (confirmed): the deduplicated run list is sorted by quarter then
descending points_for, every kept run is one of the candidates and has
the largest points_for among candidates of its (quarter, team) pair,
and every pair occurring among the candidates keeps exactly one run. -/
theorem dedup_runs_spec (runs : List Run) :
    List.Sorted runOrder (deduplicate_runs runs) ∧
    (∀ r ∈ deduplicate_runs runs,
      r ∈ runs ∧ ∀ b ∈ runs, b.quarter = r.quarter → b.team = r.team →
        b.points_for ≤ r.points_for) ∧
    (∀ c ∈ runs,
      ((deduplicate_runs runs).filter
          (fun x => decide ((x.quarter, x.team) = (c.quarter, c.team)))).length = 1) := by
  rcases runs with _ | ⟨r0, rest⟩
  · refine ⟨List.sorted_nil, ?_, ?_⟩
    · intro r hr
      cases hr
    · intro c hc
      cases hc
  · have hdef : deduplicate_runs (r0 :: rest) =
        List.insertionSort runOrder
          ((bestFold (fun r : Run => (r.quarter, r.team)) (fun r => r.points_for) []
            (r0 :: rest)).map Prod.snd) := rfl
    have hperm := List.perm_insertionSort runOrder
      ((bestFold (fun r : Run => (r.quarter, r.team)) (fun r => r.points_for) []
        (r0 :: rest)).map Prod.snd)
    refine ⟨?_, ?_, ?_⟩
    · rw [hdef]
      exact List.sorted_insertionSort runOrder _
    · intro r hr
      rw [hdef] at hr
      have hr0 := hperm.mem_iff.mp hr
      have h := bestFold_mem_max (fun r : Run => (r.quarter, r.team))
        (fun r => r.points_for) (r0 :: rest) r hr0
      refine ⟨h.1, ?_⟩
      intro b hb hq hteam
      exact h.2 b hb (by simp [hq, hteam])
    · intro c hc
      rw [hdef]
      have hlen := bestFold_exactly_one (fun r : Run => (r.quarter, r.team))
        (fun r => r.points_for) (r0 :: rest) c hc
      have hpf := hperm.filter
        (fun x : Run => decide ((x.quarter, x.team) = (c.quarter, c.team)))
      rw [hpf.length_eq]
      exact hlen

/-- Witness for C5: of two overlapping quarter-1 candidates for the
same team only one survives. -/
theorem dedup_runs_spec_witness :
    ((deduplicate_runs [runH10, runH12]).filter
        (fun x => decide ((x.quarter, x.team) = (runH10.quarter, runH10.team)))).length = 1 :=
  (dedup_runs_spec [runH10, runH12]).2.2 runH10 (by decide)
